import Mathlib

set_option linter.unusedVariables false

namespace MultiNus

/-! Shallow embedding of `src/main_new.c` (multi-NUS central UART bridge).
Machine bytes are modelled as `Nat`; the connection-context registry is a
list indexed by peer id, where an entry `some c` means `bt_conn_ctx_get_by_id`
returns a context and `c : Option Unit` is its `data` pointer (`some ()` for a
non-null `bt_nus_client`, `none` for a null one).  Side effects are modelled
as explicit action traces. -/

/-- UART payload buffer element size, from `#define UART_BUF_SIZE 20`. -/
def UART_BUF_SIZE : Nat := 20

/-- Timeout of the NUS write semaphore wait, from `#define NUS_WRITE_TIMEOUT K_MSEC(150)`. -/
def NUS_WRITE_TIMEOUT : Nat := 150

/-- Delay before retrying buffer allocation, from `#define UART_WAIT_FOR_BUF_DELAY K_MSEC(50)`. -/
def UART_WAIT_FOR_BUF_DELAY : Nat := 50

/-- Routed-message marker, from `#define ROUTED_MESSAGE_CHAR '*'` (ASCII 42). -/
def ROUTED_MESSAGE_CHAR : Nat := 42

/-- Broadcast sentinel, from `#define BROADCAST_INDEX 99`. -/
def BROADCAST_INDEX : Nat := 99

/-- The `struct uart_data_t` buffer: a byte array plus a length field. -/
structure uart_data_t where
  data : List Nat
  len : Nat
deriving DecidableEq, Repr

/-- Observable actions performed by the embedded handlers. -/
inductive Act where
  | sendBLE (peer : Nat) (bytes : List Nat)
  | semTake (timeoutMs : Nat)
  | routeCall (frame : uart_data_t)
  | uartTxSerial (frame : List Nat)
  | fifoPutSerial (frame : List Nat)
  | logWarn
  | retryDelayed (delayMs : Nat)
  | rxEnable
deriving DecidableEq, Repr

/-- ASCII decimal digit test, as used by `atoi`. -/
def isDigit (c : Nat) : Bool := 48 ≤ c && c ≤ 57

/-- ASCII whitespace test, as skipped by `atoi`. -/
def isSpace (c : Nat) : Bool := c == 32 || (9 ≤ c && c ≤ 13)

/-- The `atoi(str)` call of `multi_nus_send`, where `str` holds exactly the two
characters `message[1]` and `message[2]` (the C code builds a two-character
array; we model the parse as stopping after those two characters): skip at
most one leading space, then an optional sign, then decimal digits. -/
def atoi2 (c1 c2 : Nat) : Int :=
  if isSpace c1 then (if isDigit c2 then (c2 : Int) - 48 else 0)
  else if c1 = 45 then (if isDigit c2 then -((c2 : Int) - 48) else 0)
  else if c1 = 43 then (if isDigit c2 then (c2 : Int) - 48 else 0)
  else if isDigit c1 then
    (if isDigit c2 then 10 * ((c1 : Int) - 48) + ((c2 : Int) - 48) else (c1 : Int) - 48)
  else 0

/-- Result of `bt_conn_ctx_get_by_id` followed by the `ctx->data` null check in
`multi_nus_send`: `some ()` exactly when a context exists for id `i` and its
`bt_nus_client` pointer is non-null. -/
def connCtx (ctxs : List (Option (Option Unit))) (i : Nat) : Option Unit :=
  match ctxs[i]? with
  | some (some (some u)) => some u
  | _ => none

/-- The byte slice `message = &buf->data[off]`, `length = buf->len - off`
handed to `bt_nus_client_send`. -/
def payloadBytes (buf : uart_data_t) (off : Nat) : List Nat :=
  (buf.data.drop off).take (buf.len - off)

/-- The broadcast loop of `multi_nus_send` (lines 160-192): for each id `i`
in ascending order, look up the context, and when it exists with a non-null
client, send the payload and take the write semaphore. -/
def broadcastFrom (pl : List Nat) : Nat → List (Option (Option Unit)) → List Act
  | _, [] => []
  | i, c :: rest =>
    (match c with
     | some (some _) => [Act.sendBLE i pl, Act.semTake NUS_WRITE_TIMEOUT]
     | _ => []) ++ broadcastFrom pl (i + 1) rest

/-- The `multi_nus_send` routing function (lines 89-195): a frame starting
with `'*'` whose two following characters parse to an id in `[0, count)` is
sent to that peer only (payload from offset 3); a parse of `99` broadcasts
the payload from offset 3; any other parse, or no marker, broadcasts the
whole frame. -/
def multi_nus_send (ctxs : List (Option (Option Unit))) (buf : uart_data_t) : List Act :=
  let v := atoi2 (buf.data.getD 1 0) (buf.data.getD 2 0)
  if buf.data.getD 0 0 = ROUTED_MESSAGE_CHAR then
    if 0 ≤ v ∧ v < (ctxs.length : Int) then
      match connCtx ctxs v.toNat with
      | some _ => [Act.sendBLE v.toNat (payloadBytes buf 3), Act.semTake NUS_WRITE_TIMEOUT]
      | none => []
    else if v = (BROADCAST_INDEX : Int) then
      broadcastFrom (payloadBytes buf 3) 0 ctxs
    else
      broadcastFrom (payloadBytes buf 0) 0 ctxs
  else
    broadcastFrom (payloadBytes buf 0) 0 ctxs

/-- Extract the `bt_nus_client_send` calls (peer id, bytes) from a trace. -/
def sends (acts : List Act) : List (Nat × List Nat) :=
  acts.filterMap fun a =>
    match a with
    | Act.sendBLE p b => some (p, b)
    | _ => none

/-- Peer ids, in iteration order, for which the broadcast loop starting at
index `k` finds a context with a non-null client. -/
def connectedFrom : Nat → List (Option (Option Unit)) → List Nat
  | _, [] => []
  | i, c :: rest =>
    (match c with
     | some (some _) => [i]
     | _ => []) ++ connectedFrom (i + 1) rest

/-- Holds of a trace in which every `bt_nus_client_send` is immediately
followed by a `k_sem_take(&nus_write_sem, NUS_WRITE_TIMEOUT)`. -/
def gatedB : List Act → Bool
  | [] => true
  | Act.sendBLE _ _ :: rest =>
    match rest with
    | Act.semTake t :: rest2 => (t == NUS_WRITE_TIMEOUT) && gatedB rest2
    | _ => false
  | _ :: rest => gatedB rest

/-- The `ble_data_sent` callback: gives the binary write semaphore
(`K_SEM_DEFINE(nus_write_sem, 0, 1)`, so the count saturates at 1)
regardless of the ATT error code. -/
def ble_data_sent (err : Nat) (sem : Nat) : Nat := min (sem + 1) 1

/-- The chunking loop of `ble_data_received` (lines 207-247), fuelled for
structural recursion (the fuel is at least the remaining length at every
call site).  Arguments: allocation oracle (per chunk index), `uart_tx`
success oracle, whether `data[0] == ROUTED_MESSAGE_CHAR`, the last byte of
the whole reception, fuel, chunk index, remaining bytes. -/
def bleLoopF (alloc uartOk : Nat → Bool) (star : Bool) (last : Nat) :
    Nat → Nat → List Nat → List Act
  | 0, _, _ => []
  | _ + 1, _, [] => []
  | fuel + 1, k, a :: tl =>
    if alloc k then
      let rem := a :: tl
      let t := min rem.length (UART_BUF_SIZE - 1)
      let c0 := rem.take t
      let c := if (rem.drop t).isEmpty && (last == 13) then c0 ++ [10] else c0
      (if star then [Act.routeCall ⟨c, c.length⟩] else []) ++
        (if uartOk k then [Act.uartTxSerial c] else [Act.fifoPutSerial c]) ++
        bleLoopF alloc uartOk star last fuel (k + 1) (rem.drop t)
    else [Act.logWarn]

/-- The `ble_data_received` handler (lines 203-250): split the received bytes
into chunks of at most `UART_BUF_SIZE - 1` bytes, append a line feed to the
final chunk when the last received byte is a carriage return, pass each chunk
to `multi_nus_send` when the first received byte is the routing marker, and
forward each chunk to the serial side (via `uart_tx`, or the TX FIFO when
`uart_tx` fails).  On buffer-allocation failure it logs and returns. -/
def ble_data_received (alloc uartOk : Nat → Bool) (data : List Nat) : List Act :=
  bleLoopF alloc uartOk (data.getD 0 0 == ROUTED_MESSAGE_CHAR) (data.getLastD 0)
    data.length 0 data

/-- Frames forwarded toward the local serial output in a trace (either
directly via `uart_tx` or queued on `fifo_uart_tx_data`). -/
def serialFrames (acts : List Act) : List (List Nat) :=
  acts.filterMap fun a =>
    match a with
    | Act.uartTxSerial f => some f
    | Act.fifoPutSerial f => some f
    | _ => none

/-- Frames handed to `multi_nus_send` in a trace. -/
def routeCalls (acts : List Act) : List uart_data_t :=
  acts.filterMap fun a =>
    match a with
    | Act.routeCall f => some f
    | _ => none

/-- The chunk decomposition performed by `ble_data_received` when every
allocation succeeds (fuelled like `bleLoopF`). -/
def bleChunksF (last : Nat) : Nat → List Nat → List (List Nat)
  | 0, _ => []
  | _ + 1, [] => []
  | fuel + 1, a :: tl =>
    let rem := a :: tl
    let t := min rem.length (UART_BUF_SIZE - 1)
    let c0 := rem.take t
    (if (rem.drop t).isEmpty && (last == 13) then c0 ++ [10] else c0) ::
      bleChunksF last fuel (rem.drop t)

/-- Chunk decomposition of a full reception. -/
def bleChunks (last : Nat) (data : List Nat) : List (List Nat) :=
  bleChunksF last data.length data

/-- State of the UART transmit machine in `uart_cb`: the buffer being
retried after an abort and the accumulated count of bytes already sent. -/
structure tx_machine_t where
  abortedBuf : Option uart_data_t
  abortedLen : Nat
deriving DecidableEq, Repr

/-- The `UART_TX_ABORTED` branch of `uart_cb` (lines 348-360): remember the
aborted buffer on the first abort, add the partial length to the accumulated
offset, and reissue `uart_tx(&buf->data[aborted_len], buf->len - aborted_len)`.
Returns the new state and the bytes of the reissued transmission. -/
def uart_cb_tx_aborted (s : tx_machine_t) (evtBuf : uart_data_t) (evtLen : Nat) :
    tx_machine_t × List Nat :=
  let ab := s.abortedBuf.getD evtBuf
  let al := s.abortedLen + evtLen
  (⟨some ab, al⟩, (ab.data.drop al).take (ab.len - al))

/-- Run a sequence of `UART_TX_ABORTED` events (with the given partial
lengths) against the transmit machine, collecting the reissued
transmissions. -/
def runAborts (f : uart_data_t) : tx_machine_t → List Nat → tx_machine_t × List (List Nat)
  | s, [] => (s, [])
  | s, l :: ls =>
    let step := uart_cb_tx_aborted s f l
    let rest := runAborts f step.1 ls
    (rest.1, step.2 :: rest.2)

/-- The portions of a frame actually put on the wire when transmission is
aborted after `l` bytes for each `l` in the list, with the final attempt
completing: the first `l₁` bytes, then the next `l₂` bytes, and so on,
ending with the remaining suffix. -/
def txPortions : List Nat → List Nat → List (List Nat)
  | frame, [] => [frame]
  | frame, l :: ls => frame.take l :: txPortions (frame.drop l) ls

/-- The `UART_RX_DISABLED` branch of `uart_cb` (lines 310-324): allocate a
fresh receive buffer and re-enable reception, or log and submit the delayed
retry work item. -/
def uart_cb_rx_disabled (allocOk : Bool) : List Act :=
  if allocOk then [Act.rxEnable]
  else [Act.logWarn, Act.retryDelayed UART_WAIT_FOR_BUF_DELAY]

/-- The `uart_work_handler` retry work item (lines 367-381): identical
allocate-or-retry behaviour. -/
def uart_work_handler (allocOk : Bool) : List Act :=
  if allocOk then [Act.rxEnable]
  else [Act.logWarn, Act.retryDelayed UART_WAIT_FOR_BUF_DELAY]

/-- Actions of the `connected` handler touching the connection context. -/
inductive ConnAct where
  | logNoMemory
  | memsetCtx (ctx : Option Unit)
  | nusClientInit (ctx : Option Unit)
  | ctxRelease (ctx : Option Unit)
deriving DecidableEq, Repr

/-- The connection-context path of the `connected` handler (lines 549-564):
after `bt_conn_ctx_alloc`, a null result is logged, and then the handler
unconditionally proceeds to `memset`, `bt_nus_client_init` and
`bt_conn_ctx_release` on whatever pointer was returned. -/
def connected (allocResult : Option Unit) : List ConnAct :=
  (if allocResult.isNone then [ConnAct.logNoMemory] else []) ++
    [ConnAct.memsetCtx allocResult, ConnAct.nusClientInit allocResult,
     ConnAct.ctxRelease allocResult]

end MultiNus

namespace MultiNus

theorem atoi2_digits (c1 c2 : Nat) (h1 : 48 ≤ c1) (h2 : c1 ≤ 57)
    (h3 : 48 ≤ c2) (h4 : c2 ≤ 57) :
    atoi2 c1 c2 = ((10 * (c1 - 48) + (c2 - 48) : Nat) : Int) := by
  have hs : isSpace c1 = false := by simp [isSpace]; omega
  have hd1 : isDigit c1 = true := by simp [isDigit]; omega
  have hd2 : isDigit c2 = true := by simp [isDigit]; omega
  have h45 : c1 ≠ 45 := by omega
  have h43 : c1 ≠ 43 := by omega
  simp only [atoi2, hs, hd1, hd2, h45, h43, Bool.false_eq_true, if_false, if_true,
    if_neg h45, if_neg h43]
  omega

theorem sends_append (a b : List Act) : sends (a ++ b) = sends a ++ sends b :=
  List.filterMap_append a b _

theorem sends_cons_send (p : Nat) (b : List Nat) (rest : List Act) :
    sends (Act.sendBLE p b :: rest) = (p, b) :: sends rest := rfl

theorem sends_cons_semTake (t : Nat) (rest : List Act) :
    sends (Act.semTake t :: rest) = sends rest := rfl

theorem sends_broadcastFrom (pl : List Nat) :
    ∀ (k : Nat) (ctxs : List (Option (Option Unit))),
      sends (broadcastFrom pl k ctxs) = (connectedFrom k ctxs).map (fun i => (i, pl)) := by
  intro k ctxs
  induction ctxs generalizing k with
  | nil => rfl
  | cons c rest ih =>
    rcases c with _ | (_ | u) <;>
      simp only [broadcastFrom, connectedFrom, List.nil_append, List.cons_append,
        sends_cons_send, sends_cons_semTake, List.map_cons, ih (k + 1)]

theorem connectedFrom_le :
    ∀ (ctxs : List (Option (Option Unit))) (k i : Nat),
      i ∈ connectedFrom k ctxs → k ≤ i := by
  intro ctxs
  induction ctxs with
  | nil => intro k i h; simp [connectedFrom] at h
  | cons c rest ih =>
    intro k i h
    rcases c with _ | (_ | u) <;> simp [connectedFrom] at h
    · exact Nat.le_of_succ_le (ih (k + 1) i h)
    · exact Nat.le_of_succ_le (ih (k + 1) i h)
    · rcases h with h | h
      · omega
      · exact Nat.le_of_succ_le (ih (k + 1) i h)

theorem connectedFrom_pairwise (ctxs : List (Option (Option Unit))) (k : Nat) :
    List.Pairwise (· < ·) (connectedFrom k ctxs) := by
  induction ctxs generalizing k with
  | nil => simp [connectedFrom]
  | cons c rest ih =>
    rcases c with _ | (_ | u) <;> simp [connectedFrom]
    · exact ih (k + 1)
    · exact ih (k + 1)
    · refine ⟨?_, ih (k + 1)⟩
      intro i hi
      have := connectedFrom_le rest (k + 1) i hi
      omega

theorem connCtx_cons_succ (c : Option (Option Unit)) (rest : List (Option (Option Unit)))
    (j : Nat) : connCtx (c :: rest) (j + 1) = connCtx rest j := by
  simp [connCtx]

theorem connectedFrom_eq_filterMap :
    ∀ (ctxs : List (Option (Option Unit))) (k : Nat),
      connectedFrom k ctxs = (List.range ctxs.length).filterMap
        (fun j => if (connCtx ctxs j).isSome then some (k + j) else none) := by
  intro ctxs
  induction ctxs with
  | nil => intro k; rfl
  | cons c rest ih =>
    intro k
    rw [List.length_cons, List.range_succ_eq_map, List.filterMap_cons,
      List.filterMap_map]
    have htail :
        (List.range rest.length).filterMap
            ((fun j => if (connCtx (c :: rest) j).isSome then some (k + j) else none) ∘
              Nat.succ)
          = connectedFrom (k + 1) rest := by
      rw [ih (k + 1)]
      apply List.filterMap_congr
      intro j hj
      have hsh : k + (j + 1) = (k + 1) + j := by omega
      simp only [Function.comp_apply, Nat.succ_eq_add_one, connCtx_cons_succ, hsh]
    rw [htail]
    rcases c with _ | (_ | u)
    · rw [show connCtx (none :: rest) 0 = none by simp [connCtx]]
      simp [connectedFrom]
    · rw [show connCtx (some none :: rest) 0 = none by simp [connCtx]]
      simp [connectedFrom]
    · rw [show connCtx (some (some u) :: rest) 0 = some u by simp [connCtx]]
      simp [connectedFrom]

theorem filterMap_guard_eq_filter (p : Nat → Bool) :
    ∀ l : List Nat, l.filterMap (fun j => if p j then some j else none) = l.filter p := by
  intro l
  induction l with
  | nil => rfl
  | cons a tl ih =>
    by_cases h : p a <;> simp [List.filterMap_cons, List.filter_cons, h, ih]

theorem connectedFrom_eq_filter (ctxs : List (Option (Option Unit))) :
    connectedFrom 0 ctxs
      = (List.range ctxs.length).filter (fun i => (connCtx ctxs i).isSome) := by
  rw [connectedFrom_eq_filterMap ctxs 0]
  rw [← filterMap_guard_eq_filter (fun i => (connCtx ctxs i).isSome)]
  apply List.filterMap_congr
  intro j hj
  simp

theorem payloadBytes_zero (buf : uart_data_t) :
    payloadBytes buf 0 = buf.data.take buf.len := by
  simp [payloadBytes]

end MultiNus

namespace MultiNus

/-- C1: for a frame starting with the `'*'` marker whose two following bytes
are ASCII digits parsing to an id `v` in `[0, count)`, `multi_nus_send`
dispatches exactly the payload from offset 3 (length reduced by 3) to peer
`v` and to no other peer; and when the context lookup for peer `v` yields no
context (or a null client) at dispatch time, nothing is sent to any peer —
the send is dropped with no fallback to broadcast. -/
theorem multi_nus_send_routed_spec (ctxs : List (Option (Option Unit))) (buf : uart_data_t)
    (h0 : buf.data.getD 0 0 = ROUTED_MESSAGE_CHAR)
    (h1 : 48 ≤ buf.data.getD 1 0) (h2 : buf.data.getD 1 0 ≤ 57)
    (h3 : 48 ≤ buf.data.getD 2 0) (h4 : buf.data.getD 2 0 ≤ 57)
    (hv : 10 * (buf.data.getD 1 0 - 48) + (buf.data.getD 2 0 - 48) < ctxs.length) :
    sends (multi_nus_send ctxs buf)
      = (if (connCtx ctxs (10 * (buf.data.getD 1 0 - 48) + (buf.data.getD 2 0 - 48))).isSome
         then [(10 * (buf.data.getD 1 0 - 48) + (buf.data.getD 2 0 - 48), payloadBytes buf 3)]
         else []) := by
  set vn : Nat := 10 * (buf.data.getD 1 0 - 48) + (buf.data.getD 2 0 - 48) with hvn
  have hat : atoi2 (buf.data.getD 1 0) (buf.data.getD 2 0) = (vn : Int) :=
    atoi2_digits _ _ h1 h2 h3 h4
  unfold multi_nus_send
  rw [if_pos h0, hat]
  have hcond : (0 : Int) ≤ (vn : Int) ∧ (vn : Int) < (ctxs.length : Int) := by
    constructor
    · exact_mod_cast Nat.zero_le vn
    · exact_mod_cast hv
  rw [if_pos hcond, Int.toNat_natCast]
  cases hc : connCtx ctxs vn with
  | none => simp [sends]
  | some u => simp [sends_cons_send, sends_cons_semTake, sends]

/-- Witness for C1: two connected peers, frame `"*01hi"` goes to peer 1 with
payload `"hi"`; with peer 1 absent from the registry, nothing is sent. -/
theorem multi_nus_send_routed_spec_witness :
    sends (multi_nus_send [some (some ()), some (some ())] ⟨[42, 48, 49, 104, 105], 5⟩)
        = [(1, [104, 105])]
      ∧ sends (multi_nus_send [some (some ()), none] ⟨[42, 48, 49, 104, 105], 5⟩) = [] := by
  constructor
  · exact (multi_nus_send_routed_spec [some (some ()), some (some ())]
      ⟨[42, 48, 49, 104, 105], 5⟩ (by decide) (by decide) (by decide) (by decide) (by decide)
      (by decide)).trans (by decide)
  · exact (multi_nus_send_routed_spec [some (some ()), none]
      ⟨[42, 48, 49, 104, 105], 5⟩ (by decide) (by decide) (by decide) (by decide) (by decide)
      (by decide)).trans (by decide)

/-- C2: a frame not starting with `'*'` is dispatched unmodified (the
`buf.len` bytes of the frame) to every currently connected peer, iterating
ids in ascending order `0 .. count - 1` (the id list is the ascending filter
of `[0, count)` by registry lookup); and a frame `'*' ++ "99" ++ payload`
behaves identically except that the dispatched bytes are the payload from
offset 3. -/
theorem multi_nus_send_broadcast_spec :
    (∀ (ctxs : List (Option (Option Unit))) (buf : uart_data_t),
        buf.data.getD 0 0 ≠ ROUTED_MESSAGE_CHAR →
        sends (multi_nus_send ctxs buf)
            = (connectedFrom 0 ctxs).map (fun i => (i, buf.data.take buf.len))
          ∧ List.Pairwise (· < ·) (connectedFrom 0 ctxs)
          ∧ connectedFrom 0 ctxs
              = (List.range ctxs.length).filter (fun i => (connCtx ctxs i).isSome))
    ∧ (∀ (ctxs : List (Option (Option Unit))) (buf : uart_data_t),
        buf.data.getD 0 0 = ROUTED_MESSAGE_CHAR →
        buf.data.getD 1 0 = 57 → buf.data.getD 2 0 = 57 →
        ctxs.length ≤ 99 →
        sends (multi_nus_send ctxs buf)
          = (connectedFrom 0 ctxs).map (fun i => (i, payloadBytes buf 3))) := by
  constructor
  · intro ctxs buf h
    refine ⟨?_, connectedFrom_pairwise ctxs 0, connectedFrom_eq_filter ctxs⟩
    unfold multi_nus_send
    rw [if_neg h, sends_broadcastFrom, payloadBytes_zero]
  · intro ctxs buf h0 h1 h2 hlen
    unfold multi_nus_send
    rw [if_pos h0, h1, h2]
    have hat : atoi2 57 57 = (99 : Int) := by decide
    rw [hat]
    have hno : ¬ ((0 : Int) ≤ (99 : Int) ∧ (99 : Int) < (ctxs.length : Int)) := by
      rintro ⟨-, hlt⟩
      have : (99 : Nat) < ctxs.length := by exact_mod_cast hlt
      omega
    rw [if_neg hno, if_pos (by decide : (99 : Int) = (BROADCAST_INDEX : Int)),
      sends_broadcastFrom]

/-- Witness for C2: three registry slots with peers 0 and 2 connected; a
marker-free frame `"hi"` is broadcast whole, and `"*99h"` broadcasts the
payload after the prefix. -/
theorem multi_nus_send_broadcast_spec_witness :
    sends (multi_nus_send [some (some ()), none, some (some ())] ⟨[104, 105], 2⟩)
        = [(0, [104, 105]), (2, [104, 105])]
      ∧ sends (multi_nus_send [some (some ()), none, some (some ())] ⟨[42, 57, 57, 104], 4⟩)
        = [(0, [104]), (2, [104])] := by
  constructor
  · exact (multi_nus_send_broadcast_spec.1 [some (some ()), none, some (some ())]
      ⟨[104, 105], 2⟩ (by decide)).1.trans (by decide)
  · exact (multi_nus_send_broadcast_spec.2 [some (some ()), none, some (some ())]
      ⟨[42, 57, 57, 104], 4⟩ (by decide) (by decide) (by decide) (by decide)).trans (by decide)

/-- C3: a frame `'*' ++ dd ++ rest` whose two-character parse is neither in
`[0, count)` nor equal to 99 is broadcast fail-open: it is dispatched to
every currently connected peer, and the dispatched bytes are the entire
original frame including the `'*dd'` prefix (nothing is stripped). -/
theorem multi_nus_send_unroutable_spec (ctxs : List (Option (Option Unit)))
    (buf : uart_data_t)
    (h0 : buf.data.getD 0 0 = ROUTED_MESSAGE_CHAR)
    (hrange : ¬ ((0 : Int) ≤ atoi2 (buf.data.getD 1 0) (buf.data.getD 2 0) ∧
                 atoi2 (buf.data.getD 1 0) (buf.data.getD 2 0) < (ctxs.length : Int)))
    (h99 : atoi2 (buf.data.getD 1 0) (buf.data.getD 2 0) ≠ (BROADCAST_INDEX : Int)) :
    sends (multi_nus_send ctxs buf)
      = (connectedFrom 0 ctxs).map (fun i => (i, buf.data.take buf.len)) := by
  unfold multi_nus_send
  rw [if_pos h0, if_neg hrange, if_neg h99, sends_broadcastFrom, payloadBytes_zero]

/-- Witness for C3: one connected peer, frame `"*55h"` (id 55 out of range,
not 99) is broadcast with its full bytes, prefix included. -/
theorem multi_nus_send_unroutable_spec_witness :
    sends (multi_nus_send [some (some ())] ⟨[42, 53, 53, 104], 4⟩)
      = [(0, [42, 53, 53, 104])] := by
  exact (multi_nus_send_unroutable_spec [some (some ())] ⟨[42, 53, 53, 104], 4⟩
    (by decide) (by decide) (by decide)).trans (by decide)

theorem gatedB_broadcastFrom (pl : List Nat) :
    ∀ (k : Nat) (ctxs : List (Option (Option Unit))),
      gatedB (broadcastFrom pl k ctxs) = true := by
  intro k ctxs
  induction ctxs generalizing k with
  | nil => rfl
  | cons c rest ih =>
    rcases c with _ | (_ | u)
    · simpa [broadcastFrom] using ih (k + 1)
    · simpa [broadcastFrom] using ih (k + 1)
    · simpa [broadcastFrom, gatedB] using ih (k + 1)

/-- C8: along every path of `multi_nus_send`, each `bt_nus_client_send` is
immediately followed by taking the write-completion semaphore with the
bounded `NUS_WRITE_TIMEOUT` wait, so in a broadcast fan-out the send to the
next peer is never issued before the previous send completed or timed out;
and `ble_data_sent` gives the binary semaphore (count saturating at 1)
regardless of the ATT error code. -/
theorem multi_nus_send_single_outstanding :
    (∀ (ctxs : List (Option (Option Unit))) (buf : uart_data_t),
        gatedB (multi_nus_send ctxs buf) = true)
      ∧ (∀ err sem : Nat, ble_data_sent err sem = 1) := by
  constructor
  · intro ctxs buf
    unfold multi_nus_send
    by_cases h0 : buf.data.getD 0 0 = ROUTED_MESSAGE_CHAR
    · rw [if_pos h0]
      by_cases hc : (0 : Int) ≤ atoi2 (buf.data.getD 1 0) (buf.data.getD 2 0) ∧
          atoi2 (buf.data.getD 1 0) (buf.data.getD 2 0) < (ctxs.length : Int)
      · rw [if_pos hc]
        cases hcc : connCtx ctxs (atoi2 (buf.data.getD 1 0) (buf.data.getD 2 0)).toNat with
        | none => simp [hcc, gatedB]
        | some u => simp [hcc, gatedB]
      · rw [if_neg hc]
        by_cases h99 : atoi2 (buf.data.getD 1 0) (buf.data.getD 2 0) = (BROADCAST_INDEX : Int)
        · rw [if_pos h99]; exact gatedB_broadcastFrom _ 0 ctxs
        · rw [if_neg h99]; exact gatedB_broadcastFrom _ 0 ctxs
    · rw [if_neg h0]
      exact gatedB_broadcastFrom _ 0 ctxs
  · intro err sem
    simp [ble_data_sent]

end MultiNus

namespace MultiNus

theorem routeCalls_nil : routeCalls [] = [] := rfl

theorem serialFrames_nil : serialFrames [] = [] := rfl

theorem routeCalls_cons_route (f : uart_data_t) (r : List Act) :
    routeCalls (Act.routeCall f :: r) = f :: routeCalls r := rfl

theorem routeCalls_cons_tx (f : List Nat) (r : List Act) :
    routeCalls (Act.uartTxSerial f :: r) = routeCalls r := rfl

theorem routeCalls_cons_fifo (f : List Nat) (r : List Act) :
    routeCalls (Act.fifoPutSerial f :: r) = routeCalls r := rfl

theorem routeCalls_cons_log (r : List Act) :
    routeCalls (Act.logWarn :: r) = routeCalls r := rfl

theorem serialFrames_cons_route (f : uart_data_t) (r : List Act) :
    serialFrames (Act.routeCall f :: r) = serialFrames r := rfl

theorem serialFrames_cons_tx (f : List Nat) (r : List Act) :
    serialFrames (Act.uartTxSerial f :: r) = f :: serialFrames r := rfl

theorem serialFrames_cons_fifo (f : List Nat) (r : List Act) :
    serialFrames (Act.fifoPutSerial f :: r) = f :: serialFrames r := rfl

theorem serialFrames_cons_log (r : List Act) :
    serialFrames (Act.logWarn :: r) = serialFrames r := rfl

theorem routeCalls_bleLoopF (alloc uartOk : Nat → Bool) (star : Bool) (last : Nat) :
    ∀ (fuel k : Nat) (rem : List Nat),
      routeCalls (bleLoopF alloc uartOk star last fuel k rem)
        = if star then
            (serialFrames (bleLoopF alloc uartOk star last fuel k rem)).map
              (fun c => (⟨c, c.length⟩ : uart_data_t))
          else [] := by
  intro fuel
  induction fuel with
  | zero =>
    intro k rem
    cases star <;> simp [bleLoopF, routeCalls_nil, serialFrames_nil]
  | succ fuel ih =>
    intro k rem
    cases rem with
    | nil => cases star <;> simp [bleLoopF, routeCalls_nil, serialFrames_nil]
    | cons a tl =>
      by_cases ha : alloc k = true
      · simp only [bleLoopF, ha, if_true]
        by_cases hu : uartOk k = true <;> cases star <;>
          simp [hu, routeCalls_cons_route, routeCalls_cons_tx, routeCalls_cons_fifo,
            serialFrames_cons_route, serialFrames_cons_tx, serialFrames_cons_fifo,
            ih (k + 1)]
      · simp only [bleLoopF, ha, if_false, Bool.false_eq_true]
        cases star <;> simp [routeCalls_cons_log, serialFrames_cons_log,
          routeCalls_nil, serialFrames_nil]

theorem serialFrames_bleLoopF (uartOk : Nat → Bool) (star : Bool) (last : Nat) :
    ∀ (fuel k : Nat) (rem : List Nat),
      serialFrames (bleLoopF (fun _ => true) uartOk star last fuel k rem)
        = bleChunksF last fuel rem := by
  intro fuel
  induction fuel with
  | zero => intro k rem; simp [bleLoopF, bleChunksF, serialFrames_nil]
  | succ fuel ih =>
    intro k rem
    cases rem with
    | nil => simp [bleLoopF, bleChunksF, serialFrames_nil]
    | cons a tl =>
      simp only [bleLoopF, bleChunksF, if_true]
      by_cases hu : uartOk k = true <;> cases star <;>
        simp [hu, serialFrames_cons_route, serialFrames_cons_tx, serialFrames_cons_fifo,
          ih (k + 1)]

theorem retry_not_in_bleLoopF (alloc uartOk : Nat → Bool) (star : Bool) (last : Nat) :
    ∀ (fuel k : Nat) (rem : List Nat) (d : Nat),
      Act.retryDelayed d ∉ bleLoopF alloc uartOk star last fuel k rem := by
  intro fuel
  induction fuel with
  | zero => intro k rem d; simp [bleLoopF]
  | succ fuel ih =>
    intro k rem d
    cases rem with
    | nil => simp [bleLoopF]
    | cons a tl =>
      by_cases ha : alloc k = true
      · simp only [bleLoopF, ha, if_true]
        by_cases hu : uartOk k = true <;> cases star <;>
          simp_all [List.mem_append, ih (k + 1)]
      · simp [bleLoopF, ha]

end MultiNus

namespace MultiNus

theorem bleChunksF_nil (last fuel : Nat) : bleChunksF last fuel [] = [] := by
  cases fuel <;> rfl

theorem bleChunksF_len (last : Nat) :
    ∀ (fuel : Nat) (rem c : List Nat), c ∈ bleChunksF last fuel rem →
      c.length ≤ UART_BUF_SIZE := by
  intro fuel
  induction fuel with
  | zero => intro rem c hc; simp [bleChunksF] at hc
  | succ fuel ih =>
    intro rem c hc
    cases rem with
    | nil => simp [bleChunksF] at hc
    | cons a tl =>
      simp only [bleChunksF, List.mem_cons] at hc
      rcases hc with hc | hc
      · subst hc
        have hlen : ((a :: tl).take (min (a :: tl).length (UART_BUF_SIZE - 1))).length
            ≤ UART_BUF_SIZE - 1 := by
          simp [List.length_take]
        split <;> (simp [UART_BUF_SIZE] at hlen ⊢; try omega)
      · exact ih _ c hc

theorem bleChunksF_ne_nil (last fuel : Nat) (rem : List Nat)
    (h : rem ≠ []) (hf : 1 ≤ fuel) : bleChunksF last fuel rem ≠ [] := by
  cases fuel with
  | zero => omega
  | succ fuel =>
    cases rem with
    | nil => exact absurd rfl h
    | cons a tl => simp [bleChunksF]

theorem getLast?_cons_of_ne_nil (x : List Nat) (l : List (List Nat)) (h : l ≠ []) :
    (x :: l).getLast? = l.getLast? := by
  cases l with
  | nil => exact absurd rfl h
  | cons y l2 => exact List.getLast?_cons_cons

theorem bleChunksF_getLast :
    ∀ (fuel : Nat) (rem : List Nat), rem ≠ [] → rem.length ≤ fuel →
      (bleChunksF 13 fuel rem).getLast?
        = some (rem.drop (19 * ((rem.length - 1) / 19)) ++ [10]) := by
  intro fuel
  induction fuel with
  | zero =>
    intro rem h hf
    cases rem with
    | nil => exact absurd rfl h
    | cons a tl => simp at hf
  | succ fuel ih =>
    intro rem h hf
    cases rem with
    | nil => exact absurd rfl h
    | cons a tl =>
      have hU : UART_BUF_SIZE - 1 = 19 := rfl
      simp only [bleChunksF, hU]
      by_cases hle : (a :: tl).length ≤ 19
      · have ht : min (a :: tl).length 19 = (a :: tl).length := by omega
        rw [ht, List.drop_length, List.take_length]
        have hdiv : ((a :: tl).length - 1) / 19 = 0 := by
          apply Nat.div_eq_of_lt
          simp only [List.length_cons] at hle ⊢
          omega
        rw [hdiv, Nat.mul_zero, List.drop_zero]
        simp [bleChunksF_nil]
      · have ht : min (a :: tl).length 19 = 19 := by omega
        rw [ht]
        have hrest : ((a :: tl).drop 19).length = (a :: tl).length - 19 := by
          simp [List.length_drop]
        have hne2 : (a :: tl).drop 19 ≠ [] := by
          intro hnil
          rw [hnil] at hrest
          simp only [List.length_nil, List.length_cons] at hrest
          simp only [List.length_cons] at hle
          omega
        have hfe : ((a :: tl).drop 19).isEmpty = false := by
          cases hd : (a :: tl).drop 19 with
          | nil => exact absurd hd hne2
          | cons b tb => simp
        rw [hfe]
        simp only [Bool.false_and, Bool.false_eq_true, if_false]
        have hf2 : ((a :: tl).drop 19).length ≤ fuel := by
          rw [hrest]
          simp only [List.length_cons] at hf ⊢
          omega
        have hpos : 0 < ((a :: tl).drop 19).length := List.length_pos.mpr hne2
        rw [getLast?_cons_of_ne_nil _ _
          (bleChunksF_ne_nil 13 fuel _ hne2 (by omega))]
        rw [ih _ hne2 hf2, hrest, List.drop_drop]
        have h20 : 20 ≤ (a :: tl).length := by
          simp only [List.length_cons] at hle ⊢
          omega
        have hstep : ((a :: tl).length - 19 - 1) / 19 + 1 = ((a :: tl).length - 1) / 19 := by
          rw [← Nat.add_div_right ((a :: tl).length - 19 - 1) (by norm_num : 0 < 19)]
          congr 1
          omega
        have harith : 19 + 19 * (((a :: tl).length - 19 - 1) / 19)
            = 19 * (((a :: tl).length - 1) / 19) := by
          rw [← hstep]
          ring
        rw [harith]

end MultiNus

namespace MultiNus

/-- C4 counterexample: a byte stream received FROM A PEER that begins with
the `'*'` marker is handed to `multi_nus_send` by `ble_data_received`, and
that call dispatches the frame to a peer — so the inbound path does reach
the routing/send path, contradicting the claim that the router is invoked
only for serial-side frames.  Concretely, peer bytes `"*00hi"` with one
connected peer produce a routing call whose dispatch sends `"hi"` to
peer 0. -/
theorem ble_routes_peer_frames_cex :
    routeCalls (ble_data_received (fun _ => true) (fun _ => true) [42, 48, 48, 104, 105])
        = [⟨[42, 48, 48, 104, 105], 5⟩]
      ∧ sends (multi_nus_send [some (some ())] ⟨[42, 48, 48, 104, 105], 5⟩)
        = [(0, [104, 105])] := by
  exact ⟨by decide, by decide⟩

/-- C4 amended: `ble_data_received` hands its assembled chunks to the
routing/send path (`multi_nus_send`) exactly when the first byte received
from the peer is the `'*'` marker — every relayed chunk is then also routed —
and never does so for a stream that does not begin with the marker. -/
theorem ble_route_iff_marker (alloc uartOk : Nat → Bool) (data : List Nat) :
    routeCalls (ble_data_received alloc uartOk data)
      = if data.getD 0 0 = ROUTED_MESSAGE_CHAR
        then (serialFrames (ble_data_received alloc uartOk data)).map
            (fun c => (⟨c, c.length⟩ : uart_data_t))
        else [] := by
  unfold ble_data_received
  rw [routeCalls_bleLoopF]
  by_cases h : data.getD 0 0 = ROUTED_MESSAGE_CHAR
  · have hb : (data.getD 0 0 == ROUTED_MESSAGE_CHAR) = true := by
      rw [beq_iff_eq]; exact h
    rw [hb, if_pos h, if_pos rfl]
  · have hb : (data.getD 0 0 == ROUTED_MESSAGE_CHAR) = false := by
      rw [beq_eq_false_iff_ne]; exact h
    rw [hb, if_neg h]
    simp

/-- C6: when the last byte received from a peer is a carriage return, the
final frame queued toward the serial output is the copied data of the last
chunk with a line feed appended, and every queued frame fits in
`UART_BUF_SIZE` bytes because each chunk copies at most
`UART_BUF_SIZE - 1` data bytes. -/
theorem ble_lf_append_spec (data : List Nat) (uartOk : Nat → Bool)
    (h1 : data ≠ []) (h2 : data.getLastD 0 = 13) :
    ((serialFrames (ble_data_received (fun _ => true) uartOk data)).all
        (fun f => decide (f.length ≤ UART_BUF_SIZE)) = true)
      ∧ (serialFrames (ble_data_received (fun _ => true) uartOk data)).getLast?
          = some (data.drop ((UART_BUF_SIZE - 1) * ((data.length - 1) / (UART_BUF_SIZE - 1)))
              ++ [10]) := by
  unfold ble_data_received
  rw [serialFrames_bleLoopF, h2]
  constructor
  · rw [List.all_eq_true]
    intro c hc
    rw [decide_eq_true_eq]
    exact bleChunksF_len 13 data.length data c hc
  · rw [show UART_BUF_SIZE - 1 = 19 from rfl]
    exact bleChunksF_getLast data.length data h1 (Nat.le_refl _)

/-- Witness for C6: peer bytes `"hi\r"` yield the single serial frame
`"hi\r\n"`, within the buffer bound. -/
theorem ble_lf_append_spec_witness :
    (([104, 105, 13] : List Nat) ≠ [] ∧ ([104, 105, 13] : List Nat).getLastD 0 = 13)
      ∧ ((serialFrames (ble_data_received (fun _ => true) (fun _ => true) [104, 105, 13])).all
          (fun f => decide (f.length ≤ UART_BUF_SIZE)) = true)
      ∧ (serialFrames (ble_data_received (fun _ => true) (fun _ => true)
          [104, 105, 13])).getLast? = some [104, 105, 13, 10] := by
  refine ⟨⟨by decide, by decide⟩, ?_⟩
  have h := ble_lf_append_spec [104, 105, 13] (fun _ => true) (by decide) (by decide)
  exact ⟨h.1, h.2.trans (by decide)⟩

/-- C9 counterexample: when the inbound reassembler fails to allocate a
transmit buffer, it logs and returns, dropping the remaining bytes; no
delayed retry is ever scheduled (here, the reception `"hi\r"` with a failing
allocator produces only the log action). -/
theorem ble_alloc_fail_drops_cex :
    ble_data_received (fun _ => false) (fun _ => true) [104, 105, 13] = [Act.logWarn]
      ∧ Act.retryDelayed UART_WAIT_FOR_BUF_DELAY
          ∉ ble_data_received (fun _ => false) (fun _ => true) [104, 105, 13] := by
  exact ⟨by decide, by decide⟩

/-- C9 amended: the serial-reception paths (`UART_RX_DISABLED` handling and
`uart_work_handler`) log and schedule a retry after the fixed
`UART_WAIT_FOR_BUF_DELAY` when buffer allocation fails, but the inbound
reassembler (`ble_data_received`) never schedules a delayed retry — on
allocation failure it logs and drops the rest of the reception. -/
theorem buffer_exhaustion_retry_spec :
    uart_cb_rx_disabled false = [Act.logWarn, Act.retryDelayed UART_WAIT_FOR_BUF_DELAY]
      ∧ uart_work_handler false = [Act.logWarn, Act.retryDelayed UART_WAIT_FOR_BUF_DELAY]
      ∧ uart_cb_rx_disabled true = [Act.rxEnable]
      ∧ uart_work_handler true = [Act.rxEnable]
      ∧ ∀ (alloc uartOk : Nat → Bool) (data : List Nat) (d : Nat),
          Act.retryDelayed d ∉ ble_data_received alloc uartOk data := by
  refine ⟨rfl, rfl, rfl, rfl, ?_⟩
  intro alloc uartOk data d
  exact retry_not_in_bleLoopF alloc uartOk _ _ data.length 0 data d

/-- C10: every chunk assembled by `ble_data_received` is forwarded to the
local serial output (the forwarded frames are exactly the chunk
decomposition, for any stream — marker or not — and any `uart_tx`
outcomes), and the frames passed to the routing path are always a sublist
of the frames relayed to serial: routing never suppresses the serial
relay. -/
theorem ble_serial_relay_spec :
    (∀ (uartOk : Nat → Bool) (data : List Nat),
        serialFrames (ble_data_received (fun _ => true) uartOk data)
          = bleChunks (data.getLastD 0) data)
      ∧ (∀ (alloc uartOk : Nat → Bool) (data : List Nat),
          List.Sublist
            ((routeCalls (ble_data_received alloc uartOk data)).map uart_data_t.data)
            (serialFrames (ble_data_received alloc uartOk data))) := by
  constructor
  · intro uartOk data
    unfold ble_data_received bleChunks
    rw [serialFrames_bleLoopF]
  · intro alloc uartOk data
    unfold ble_data_received
    rw [routeCalls_bleLoopF]
    cases hb : (data.getD 0 0 == ROUTED_MESSAGE_CHAR) with
    | false =>
      simp only [Bool.false_eq_true, if_false, List.map_nil]
      exact List.nil_sublist _
    | true =>
      simp only [if_true, List.map_map]
      have hcomp : (uart_data_t.data ∘ fun c => (⟨c, c.length⟩ : uart_data_t)) = id := by
        funext c
        rfl
      rw [hcomp, List.map_id]

end MultiNus

namespace MultiNus

theorem slice_eq_take_drop (f : uart_data_t) (c : Nat) :
    (f.data.drop c).take (f.len - c) = (f.data.take f.len).drop c :=
  (List.drop_take f.len c f.data).symm

theorem txPortions_flatten : ∀ (ls : List Nat) (frame : List Nat),
    (txPortions frame ls).flatten = frame := by
  intro ls
  induction ls with
  | nil => intro frame; simp [txPortions]
  | cons l ls ih =>
    intro frame
    simp only [txPortions, List.flatten_cons, ih (frame.drop l)]
    exact List.take_append_drop l frame

theorem txPortions_drop_flatten : ∀ (ls : List Nat) (frame : List Nat) (i : Nat),
    i < ls.length →
    ((txPortions frame ls).drop (i + 1)).flatten = frame.drop ((ls.take (i + 1)).sum) := by
  intro ls
  induction ls with
  | nil => intro frame i hi; simp at hi
  | cons l ls ih =>
    intro frame i hi
    cases i with
    | zero =>
      simp only [txPortions, List.drop_succ_cons, List.drop_zero, List.take_succ_cons,
        List.take_zero, List.sum_cons, List.sum_nil, Nat.add_zero]
      exact txPortions_flatten ls (frame.drop l)
    | succ i2 =>
      simp only [txPortions, List.drop_succ_cons, List.take_succ_cons, List.sum_cons]
      rw [ih (frame.drop l) i2 (by simp at hi; omega), List.drop_drop]

theorem runAborts_proj : ∀ (ls : List Nat) (f : uart_data_t) (a : Nat)
    (ob : Option uart_data_t), ob.getD f = f →
    (runAborts f ⟨ob, a⟩ ls).1.abortedLen = a + ls.sum
      ∧ (runAborts f ⟨ob, a⟩ ls).2
          = (List.range ls.length).map
              (fun i => (f.data.drop (a + (ls.take (i + 1)).sum)).take
                (f.len - (a + (ls.take (i + 1)).sum))) := by
  intro ls
  induction ls with
  | nil =>
    intro f a ob hob
    exact ⟨by simp [runAborts], by simp [runAborts]⟩
  | cons l ls ih =>
    intro f a ob hob
    have hstep : uart_cb_tx_aborted ⟨ob, a⟩ f l
        = (⟨some f, a + l⟩, (f.data.drop (a + l)).take (f.len - (a + l))) := by
      simp [uart_cb_tx_aborted, hob]
    obtain ⟨ih1, ih2⟩ := ih f (a + l) (some f) rfl
    constructor
    · simp only [runAborts, hstep, ih1, List.sum_cons]
      omega
    · simp only [runAborts, hstep, ih2, List.length_cons]
      rw [List.range_succ_eq_map, List.map_cons, List.map_map]
      congr 1
      apply List.map_congr_left
      intro j hj
      simp only [Function.comp_apply, Nat.succ_eq_add_one, List.take_succ_cons,
        List.sum_cons]
      rw [Nat.add_assoc]

/-- C7: running the `UART_TX_ABORTED` handler over any sequence of partial
lengths, the accumulated offset equals their sum; the transmission reissued
by the k-th abort is the suffix of the frame starting at the sum of the
first k partial lengths (never a restart from offset 0, never a drop); that
reissued suffix equals the concatenation of the still-untransmitted
portions; and the concatenation of all transmitted portions equals the
original frame bytes. -/
theorem uart_tx_abort_resume_spec (f : uart_data_t) (ls : List Nat) :
    (runAborts f ⟨none, 0⟩ ls).1.abortedLen = ls.sum
      ∧ (runAborts f ⟨none, 0⟩ ls).2
          = (List.range ls.length).map
              (fun i => (f.data.take f.len).drop ((ls.take (i + 1)).sum))
      ∧ (runAborts f ⟨none, 0⟩ ls).2
          = (List.range ls.length).map
              (fun i => ((txPortions (f.data.take f.len) ls).drop (i + 1)).flatten)
      ∧ (txPortions (f.data.take f.len) ls).flatten = f.data.take f.len := by
  obtain ⟨h1, h2⟩ := runAborts_proj ls f 0 none rfl
  have hslice : (runAborts f ⟨none, 0⟩ ls).2
      = (List.range ls.length).map
          (fun i => (f.data.take f.len).drop ((ls.take (i + 1)).sum)) := by
    rw [h2]
    apply List.map_congr_left
    intro i hi
    rw [Nat.zero_add, slice_eq_take_drop]
  refine ⟨by rw [h1, Nat.zero_add], hslice, ?_, txPortions_flatten ls (f.data.take f.len)⟩
  rw [hslice]
  apply List.map_congr_left
  intro i hi
  rw [List.mem_range] at hi
  have hlen : i < (ls.take f.len).length ∨ True := Or.inr trivial
  rw [txPortions_drop_flatten ls (f.data.take f.len) i hi]

/-- C5 (code evaluated at the failing input): when `bt_conn_ctx_alloc`
returns null in the `connected` handler, the handler logs the warning and
then still performs `memset` and `bt_nus_client_init` on the null context —
the acquisition is not rejected, contradicting the claim. -/
theorem connected_null_ctx_write :
    connected none
      = [ConnAct.logNoMemory, ConnAct.memsetCtx none, ConnAct.nusClientInit none,
         ConnAct.ctxRelease none]
      ∧ ConnAct.memsetCtx none ∈ connected none := by
  exact ⟨rfl, by decide⟩

end MultiNus
